import Mathlib

/-!
Verification development for the `graph-layout-rs` repository: a shallow
embedding of the Fruchterman–Reingold force-directed layout engine
(`src/fruchterman_reingold.rs`, `src/p2d.rs`, `src/vector.rs`) into Lean 4.

Modelling conventions:
* `f32` scalars are idealised as real numbers (`ℝ`); `f32::sqrt` becomes
  `Real.sqrt`.  NaN/Infinity do not exist in this idealisation; the spec
  declares non-finite inputs undefined behaviour, so real semantics is the
  intended reading of the code on its defined domain.
* The 2D point type `P2d(f32, f32)` becomes a two-field structure over `ℝ`,
  with the value-returning variant of the `Vector` operations from
  `src/p2d.rs` (the spec's canonical revision).
* `Vec<V>` becomes `List P2d`; indexing panics (Rust `v[i]` out of bounds)
  and `assert!` failures are modelled by `Option`, `none` meaning a panic.
* The `Layout` struct and its `ForceDirected` implementation are embedded
  as explicit state-passing functions; the `FnMut` closure passed to
  `update_positions` is modelled by threading an accumulator of type `σ`.
-/

noncomputable section

/-- The 2D point/vector type, `struct P2d(pub f32, pub f32)` with real
coordinates. -/
@[ext]
structure P2d where
  x : ℝ
  y : ℝ

namespace P2d

/-- `P2d::new()`: the zero vector. -/
def new : P2d := ⟨0, 0⟩

/-- `P2d::length_squared`: `self.0 * self.0 + self.1 * self.1`. -/
def length_squared (p : P2d) : ℝ := p.x * p.x + p.y * p.y

/-- `P2d::scale` (value-returning revision): multiply both coordinates. -/
def scale (p : P2d) (factor : ℝ) : P2d := ⟨p.x * factor, p.y * factor⟩

/-- `P2d::sub`: componentwise difference `self - other`. -/
def sub (p other : P2d) : P2d := ⟨p.x - other.x, p.y - other.y⟩

/-- `P2d::add_scaled`: `self += factor * other`, value-returning. -/
def add_scaled (p : P2d) (factor : ℝ) (other : P2d) : P2d :=
  ⟨p.x + factor * other.x, p.y + factor * other.y⟩

/-- `P2d::clip_within`: clamp each coordinate into `[min, max]` using the
same if/else chain as the source. -/
def clip_within (p mn mx : P2d) : P2d :=
  ⟨if p.x < mn.x then mn.x else if p.x > mx.x then mx.x else p.x,
   if p.y < mn.y then mn.y else if p.y > mx.y then mx.y else p.y⟩

/-- Euclidean length, `length_squared().sqrt()`, used by the integration
pass and the attractive force. -/
def length (p : P2d) : ℝ := Real.sqrt p.length_squared

end P2d

/-- `attractive_force(p1, p2, k_s)` from `src/fruchterman_reingold.rs`:
`force = p1 - p2; strength = force.length_squared().sqrt() / k_s;
force.scale(strength)`. -/
def attractive_force (p1 p2 : P2d) (ks : ℝ) : P2d :=
  let force := p1.sub p2
  let length := Real.sqrt force.length_squared
  let strength := length / ks
  force.scale strength

/-- `repulsive_force(p1, p2, k_r)` from `src/fruchterman_reingold.rs`:
`force = p1 - p2; if force.length_squared() > 0 { force.scale(k_r / ls) }
else { force }`. -/
def repulsive_force (p1 p2 : P2d) (kr : ℝ) : P2d :=
  let force := p1.sub p2
  let length_squared := force.length_squared
  if length_squared > 0 then force.scale (kr / length_squared) else force

/-- The `Layout` struct: per-node force accumulators, node positions, the
adjacency lists, and the locked-prefix count. -/
structure Layout where
  forces : List P2d
  node_positions : List P2d
  node_neighbors : List (List ℕ)
  lock_first_n_positions : ℕ

/-- `Layout::new`: checks `assert!(node_neighbors.len() == n)` (modelled as
`none` on failure, Rust panic) and zero-initialises one force per node. -/
def Layout.new (node_positions : List P2d) (node_neighbors : List (List ℕ)) :
    Option Layout :=
  let n := node_positions.length
  if node_neighbors.length = n then
    some { forces := (List.range n).map (fun _ => P2d.new)
           node_positions := node_positions
           node_neighbors := node_neighbors
           lock_first_n_positions := 0 }
  else
    none

/-- `Layout::lock_first_n_positions`. -/
def Layout.lock_first_n (l : Layout) (n : ℕ) : Layout :=
  { l with lock_first_n_positions := n }

/-- `reset_forces`: zero every accumulator in place. -/
def Layout.reset_forces (l : Layout) : Layout :=
  { l with forces := l.forces.map (fun _ => P2d.new) }

/-- The inner body shared by both accumulation loops:
`forces[i] += force; forces[j] -= force` via `add_scaled(±1.0, force)`. -/
def applyForcePair (fs : List P2d) (i j : ℕ) (force : P2d) : List P2d :=
  let fs1 := fs.set i ((fs.getD i P2d.new).add_scaled 1 force)
  fs1.set j ((fs1.getD j P2d.new).add_scaled (-1) force)

/-- The index pairs visited by `update_force_each_node_pair`:
`for i1 in 0..n-1 { for i2 in i1+1..n { ... } }`, in loop order. -/
def pairIndices (n : ℕ) : List (ℕ × ℕ) :=
  (List.range (n - 1)).flatMap
    (fun i1 => (List.range' (i1 + 1) (n - (i1 + 1))).map (fun i2 => (i1, i2)))

/-- One step of either accumulation loop: compute the force from the two
node positions and apply it with Newton's-third-law signs. -/
def applyF (ps : List P2d) (f : P2d → P2d → P2d) (fs : List P2d)
    (pr : ℕ × ℕ) : List P2d :=
  applyForcePair fs pr.1 pr.2 (f (ps.getD pr.1 P2d.new) (ps.getD pr.2 P2d.new))

/-- `Layout::update_force_each_node_pair`: the assert
`n == self.forces.len()` is modelled by the guard; each pair `(i1, i2)`
with `i1 < i2 < n` is visited once (indices are always in bounds). -/
def Layout.update_force_each_node_pair (l : Layout) (f : P2d → P2d → P2d) :
    Option Layout :=
  if l.node_positions.length = l.forces.length then
    some { l with
           forces := (pairIndices l.node_positions.length).foldl
             (applyF l.node_positions f) l.forces }
  else
    none

/-- The adjacency entries visited by `update_force_each_edge`:
`for i1 in 0..n { for &i2 in node_neighbors[i1] { ... } }` in loop order. -/
def edgeTargets (n : ℕ) (node_neighbors : List (List ℕ)) : List (ℕ × ℕ) :=
  (List.range n).flatMap
    (fun i1 => (node_neighbors.getD i1 []).map (fun i2 => (i1, i2)))

/-- `Layout::update_force_each_edge`.  The neighbor index `i2` comes from
caller data and is used to index `node_positions` and `forces`: an
out-of-range `i2` is a Rust panic, modelled as `none`.  The guards also
model the entry assert and the `node_neighbors[i1]` access. -/
def Layout.update_force_each_edge (l : Layout) (f : P2d → P2d → P2d) :
    Option Layout :=
  let n := l.node_positions.length
  if n = l.forces.length ∧ n ≤ l.node_neighbors.length then
    ((edgeTargets n l.node_neighbors).foldlM
      (fun fs pr =>
        if pr.2 < n ∧ pr.2 < fs.length then
          some (applyF l.node_positions f fs pr)
        else
          none)
      l.forces).map (fun fs => { l with forces := fs })
  else
    none

/-- The position-update loop body, iterated over the unlocked index list:
the state is the current positions list together with the `FnMut` closure's
accumulator. -/
def updFold {σ : Type} (fs : List P2d) (f : σ → P2d → P2d → σ × P2d) :
    List ℕ → List P2d × σ → List P2d × σ
  | [], acc => acc
  | i :: rest, (ps, s) =>
    let r := f s (ps.getD i P2d.new) (fs.getD i P2d.new)
    updFold fs f rest (ps.set i r.2, r.1)

/-- `Layout::update_positions`: `for i in lock_first_n_positions..n`, the
closure is called on `(node_positions[i], forces[i])` and its result stored
back at `i`.  The closure's mutable environment is the accumulator `σ`. -/
def Layout.update_positions_acc {σ : Type} (l : Layout)
    (f : σ → P2d → P2d → σ × P2d) (init : σ) : Option (Layout × σ) :=
  let n := l.node_positions.length
  if n = l.forces.length then
    let r := updFold l.forces f
      (List.range' l.lock_first_n_positions (n - l.lock_first_n_positions))
      (l.node_positions, init)
    some ({ l with node_positions := r.1 }, r.2)
  else
    none

/-- The closure passed by `iterate` to `update_positions`: move by exactly
`step` in the force direction when the force is nonzero (adding `step` to
`sum_distance`), then clip into the bounding box. -/
def integrateStep (step : ℝ) (mn mx : P2d) (s : ℝ) (pos force : P2d) :
    ℝ × P2d :=
  let length := Real.sqrt force.length_squared
  if length > 0 then
    (s + step, (pos.add_scaled (step / length) force).clip_within mn mx)
  else
    (s, pos.clip_within mn mx)

/-- `iterate`: reset forces, accumulate pairwise repulsion, accumulate edge
attraction (scaled by `-1`), then update positions; returns the layout and
`sum_distance`. -/
def iterate (l : Layout) (step kr ks : ℝ) (mn mx : P2d) :
    Option (Layout × ℝ) :=
  let l0 := l.reset_forces
  (l0.update_force_each_node_pair (fun p1 p2 => repulsive_force p1 p2 kr)).bind
    (fun l1 =>
      (l1.update_force_each_edge
          (fun p1 p2 => (attractive_force p1 p2 ks).scale (-1))).bind
        (fun l2 => l2.update_positions_acc (integrateStep step mn mx) 0))

/-- The `while iter < max_iter` driver loop of `layout`, by fuel
(`fuel = max_iter - iter`): run `iterate` with `step_fn(iter)`, stop when
`dist_moved < converge_eps`. -/
def layout_aux (sf : ℕ → ℝ) (kr ks eps : ℝ) (mn mx : P2d) :
    ℕ → ℕ → Layout → Option Layout
  | 0, _, l => some l
  | fuel + 1, iter, l =>
    match iterate l (sf iter) kr ks mn mx with
    | none => none
    | some (l2, d) =>
      if d < eps then some l2 else layout_aux sf kr ks eps mn mx fuel (iter + 1) l2

/-- `layout`: the public driver. -/
def layout (l : Layout) (sf : ℕ → ℝ) (max_iter : ℕ) (eps kr ks : ℝ)
    (mn mx : P2d) : Option Layout :=
  layout_aux sf kr ks eps mn mx max_iter 0 l

/-- Well-formedness of a `Layout`: the shapes match (the condition
`Layout::new` asserts) and every adjacency target is an in-range node
index.  Under `WF`, no panic point of the engine can fire. -/
def WF (l : Layout) : Prop :=
  l.forces.length = l.node_positions.length ∧
  l.node_neighbors.length = l.node_positions.length ∧
  ∀ nb ∈ l.node_neighbors, ∀ j ∈ nb, j < l.node_positions.length

/-- The force-accumulation phase of `iterate` (reset, pairwise repulsion,
edge attraction), as a total function: the same folds as the `Option`
layer, with the bounds checks dropped.  Agrees with the `Option` layer on
well-formed layouts (see `iterate_eq_iterateT`). -/
def Layout.accumulateT (l : Layout) (kr ks : ℝ) : Layout :=
  let n := l.node_positions.length
  let fs0 := l.forces.map (fun _ => P2d.new)
  let fs1 := (pairIndices n).foldl
    (applyF l.node_positions (fun p1 p2 => repulsive_force p1 p2 kr)) fs0
  let fs2 := (edgeTargets n l.node_neighbors).foldl
    (applyF l.node_positions (fun p1 p2 => (attractive_force p1 p2 ks).scale (-1)))
    fs1
  { l with forces := fs2 }

/-- One simulation iteration as a total function: force accumulation
followed by the position-integration fold; returns the new layout and the
iteration's `sum_distance`. -/
def iterateT (l : Layout) (step kr ks : ℝ) (mn mx : P2d) : Layout × ℝ :=
  let l2 := l.accumulateT kr ks
  let n := l2.node_positions.length
  let r := updFold l2.forces (integrateStep step mn mx)
    (List.range' l2.lock_first_n_positions (n - l2.lock_first_n_positions))
    (l2.node_positions, 0)
  ({ l2 with node_positions := r.1 }, r.2)

/-- The driver loop on the total layer (same recursion as `layout_aux`). -/
def layout_auxT (sf : ℕ → ℝ) (kr ks eps : ℝ) (mn mx : P2d) :
    ℕ → ℕ → Layout → Layout
  | 0, _, l => l
  | fuel + 1, iter, l =>
    let r := iterateT l (sf iter) kr ks mn mx
    if r.2 < eps then r.1 else layout_auxT sf kr ks eps mn mx fuel (iter + 1) r.1

/-- Observer of the driver loop: how many calls to `iterate` it performs. -/
def layoutIterCount (sf : ℕ → ℝ) (kr ks eps : ℝ) (mn mx : P2d) :
    ℕ → ℕ → Layout → ℕ
  | 0, _, _ => 0
  | fuel + 1, iter, l =>
    let r := iterateT l (sf iter) kr ks mn mx
    if r.2 < eps then 1
    else 1 + layoutIterCount sf kr ks eps mn mx fuel (iter + 1) r.1

/-- Observer of the driver loop: `true` when it stops through the
`dist_moved < converge_eps` break (the spec's Converged terminal state),
`false` when it exhausts the iteration budget (Exhausted). -/
def layoutConverged (sf : ℕ → ℝ) (kr ks eps : ℝ) (mn mx : P2d) :
    ℕ → ℕ → Layout → Bool
  | 0, _, _ => false
  | fuel + 1, iter, l =>
    let r := iterateT l (sf iter) kr ks mn mx
    if r.2 < eps then true
    else layoutConverged sf kr ks eps mn mx fuel (iter + 1) r.1

/-- The state after running exactly `k` iterations (no convergence test),
starting at iteration counter `iter`. -/
def stateT (sf : ℕ → ℝ) (kr ks : ℝ) (mn mx : P2d) (l : Layout) (iter : ℕ) :
    ℕ → Layout
  | 0 => l
  | k + 1 => (iterateT (stateT sf kr ks mn mx l iter k) (sf (iter + k)) kr ks mn mx).1

/-- The total movement reported by iteration `iter + k` along the
unconditional run of `stateT`. -/
def moveT (sf : ℕ → ℝ) (kr ks : ℝ) (mn mx : P2d) (l : Layout)
    (iter k : ℕ) : ℝ :=
  (iterateT (stateT sf kr ks mn mx l iter k) (sf (iter + k)) kr ks mn mx).2

/-- Componentwise vector sum of a list of accumulators. -/
def sumForces (fs : List P2d) : P2d :=
  ⟨(fs.map (fun p => p.x)).sum, (fs.map (fun p => p.y)).sum⟩

/-- Membership of a point in the axis-aligned bounding box `[mn, mx]`. -/
def inBox (mn mx p : P2d) : Prop :=
  mn.x ≤ p.x ∧ p.x ≤ mx.x ∧ mn.y ≤ p.y ∧ p.y ≤ mx.y

section Lemmas

lemma P2d.length_squared_nonneg (p : P2d) : 0 ≤ p.length_squared :=
  add_nonneg (mul_self_nonneg _) (mul_self_nonneg _)

lemma P2d.length_squared_eq_zero_iff (p : P2d) :
    p.length_squared = 0 ↔ p = P2d.new := by
  unfold P2d.length_squared P2d.new
  rw [add_eq_zero_iff_of_nonneg (mul_self_nonneg _) (mul_self_nonneg _)]
  rw [mul_self_eq_zero, mul_self_eq_zero]
  constructor
  · rintro ⟨hx, hy⟩
    ext <;> assumption
  · intro h
    rw [h]
    exact ⟨rfl, rfl⟩

lemma P2d.length_scale (p : P2d) (c : ℝ) : (p.scale c).length = |c| * p.length := by
  unfold P2d.length P2d.scale P2d.length_squared
  have h : p.x * c * (p.x * c) + p.y * c * (p.y * c)
      = c ^ 2 * (p.x * p.x + p.y * p.y) := by ring
  simp only
  rw [h, Real.sqrt_mul (sq_nonneg c), Real.sqrt_sq_eq_abs]

lemma P2d.length_nonneg (p : P2d) : 0 ≤ p.length := Real.sqrt_nonneg _

end Lemmas

/-- C2: `repulsive_force p1 p2 k_r` returns the zero vector when the
squared length of `p1 - p2` is exactly zero, and otherwise returns
`p1 - p2` scaled by `k_r / squared_length`.  (In the real-number
idealisation there is no NaN/Infinity; the degenerate branch provably
yields the zero vector because a zero squared length forces both
components of the difference to be zero.) -/
theorem claim_C2 (p1 p2 : P2d) (kr : ℝ) :
    repulsive_force p1 p2 kr =
      if (p1.sub p2).length_squared = 0 then P2d.new
      else (p1.sub p2).scale (kr / (p1.sub p2).length_squared) := by
  unfold repulsive_force
  by_cases h : (p1.sub p2).length_squared = 0
  · rw [if_pos h]
    simp only [h, gt_iff_lt, lt_irrefl, if_false]
    exact (P2d.length_squared_eq_zero_iff _).mp h
  · have hpos : 0 < (p1.sub p2).length_squared :=
      lt_of_le_of_ne (P2d.length_squared_nonneg _) (Ne.symm h)
    rw [if_neg h, if_pos hpos]

/-- C3 counterexample: at `p1 = (2,0)`, `p2 = (0,0)`, `k_s = 1` the
Euclidean magnitude of `attractive_force p1 p2 k_s` is `4`, not
`length / k_s = 2`: the returned vector is `(p1 - p2)` scaled by the
factor `length / k_s`, so its magnitude is `length^2 / k_s`. -/
theorem claim_C3_counterexample :
    (attractive_force ⟨2, 0⟩ ⟨0, 0⟩ 1).length ≠
      ((⟨2, 0⟩ : P2d).sub ⟨0, 0⟩).length / 1 := by
  have h4 : Real.sqrt 4 = 2 := by
    rw [show (4 : ℝ) = 2 ^ 2 by norm_num, Real.sqrt_sq (by norm_num : (0:ℝ) ≤ 2)]
  have h16 : Real.sqrt 16 = 4 := by
    rw [show (16 : ℝ) = 4 ^ 2 by norm_num, Real.sqrt_sq (by norm_num : (0:ℝ) ≤ 4)]
  unfold attractive_force P2d.length P2d.sub P2d.scale P2d.length_squared
  simp only
  norm_num [h4, h16]

/-- C3 amended: for `k_s > 0`, `attractive_force p1 p2 k_s` is the
difference `p1 - p2` scaled by the factor `length / k_s` (so its direction
is `p1 - p2`), and its Euclidean magnitude is `length^2 / k_s`, where
`length` is the Euclidean length of `p1 - p2`. -/
theorem claim_C3_amended (p1 p2 : P2d) (ks : ℝ) (hk : 0 < ks) :
    attractive_force p1 p2 ks = (p1.sub p2).scale ((p1.sub p2).length / ks) ∧
    (attractive_force p1 p2 ks).length = (p1.sub p2).length ^ 2 / ks := by
  constructor
  · rfl
  · show ((p1.sub p2).scale ((p1.sub p2).length / ks)).length = _
    rw [P2d.length_scale,
      abs_of_nonneg (div_nonneg (P2d.length_nonneg _) hk.le)]
    ring

/-- Witness for C3 amended at `p1 = (2,0)`, `p2 = (0,0)`, `k_s = 1`. -/
theorem claim_C3_amended_witness :
    (0 : ℝ) < 1 ∧
    (attractive_force ⟨2, 0⟩ ⟨0, 0⟩ 1 =
        ((⟨2, 0⟩ : P2d).sub ⟨0, 0⟩).scale
          (((⟨2, 0⟩ : P2d).sub ⟨0, 0⟩).length / 1) ∧
      (attractive_force ⟨2, 0⟩ ⟨0, 0⟩ 1).length =
        ((⟨2, 0⟩ : P2d).sub ⟨0, 0⟩).length ^ 2 / 1) :=
  ⟨by norm_num, claim_C3_amended ⟨2, 0⟩ ⟨0, 0⟩ 1 (by norm_num)⟩

section ListHelpers

variable {α : Type}

lemma getD_set_ne (l : List α) (i j : ℕ) (a d : α) (h : i ≠ j) :
    (l.set i a).getD j d = l.getD j d := by
  simp [List.getD, List.getElem?_set_ne h]

lemma getD_set_self (l : List α) (i : ℕ) (a d : α) (h : i < l.length) :
    (l.set i a).getD i d = a := by
  simp [List.getD, List.getElem?_set_self, h]

lemma getD_mem (l : List α) (i : ℕ) (d : α) (h : i < l.length) :
    l.getD i d ∈ l := by
  rw [List.getD_eq_getElem l d h]
  exact List.getElem_mem h

lemma sum_list_set (l : List ℝ) (i : ℕ) (a : ℝ) (h : i < l.length) :
    (l.set i a).sum = l.sum - l.getD i 0 + a := by
  induction l generalizing i with
  | nil => simp at h
  | cons b t ih =>
    cases i with
    | zero => simp [List.getD]; ring
    | succ k =>
      have hk : k < t.length := by simpa using h
      simp only [List.set_cons_succ, List.sum_cons, ih k hk, List.getD_cons_succ]
      ring

end ListHelpers

section SumForces

lemma getD_map_x (fs : List P2d) (i : ℕ) (h : i < fs.length) :
    (fs.map (fun p => p.x)).getD i 0 = (fs.getD i P2d.new).x := by
  rw [List.getD_eq_getElem _ 0 (by simpa using h), List.getD_eq_getElem _ _ h]
  simp

lemma getD_map_y (fs : List P2d) (i : ℕ) (h : i < fs.length) :
    (fs.map (fun p => p.y)).getD i 0 = (fs.getD i P2d.new).y := by
  rw [List.getD_eq_getElem _ 0 (by simpa using h), List.getD_eq_getElem _ _ h]
  simp

lemma sumForces_set (fs : List P2d) (i : ℕ) (a : P2d) (h : i < fs.length) :
    sumForces (fs.set i a) =
      ⟨(sumForces fs).x - (fs.getD i P2d.new).x + a.x,
       (sumForces fs).y - (fs.getD i P2d.new).y + a.y⟩ := by
  unfold sumForces
  ext
  · simp only
    rw [List.map_set, sum_list_set _ i _ (by simpa using h), getD_map_x fs i h]
  · simp only
    rw [List.map_set, sum_list_set _ i _ (by simpa using h), getD_map_y fs i h]

lemma sumForces_applyForcePair (fs : List P2d) (i j : ℕ) (force : P2d)
    (hi : i < fs.length) (hj : j < fs.length) :
    sumForces (applyForcePair fs i j force) = sumForces fs := by
  unfold applyForcePair
  have hj1 : j < (fs.set i ((fs.getD i P2d.new).add_scaled 1 force)).length := by
    simpa using hj
  rw [sumForces_set _ j _ hj1, sumForces_set _ i _ hi]
  unfold P2d.add_scaled
  ext <;> simp <;> ring

lemma sumForces_applyF (ps fs : List P2d) (f : P2d → P2d → P2d)
    (pr : ℕ × ℕ) (hi : pr.1 < fs.length) (hj : pr.2 < fs.length) :
    sumForces (applyF ps f fs pr) = sumForces fs :=
  sumForces_applyForcePair _ _ _ _ hi hj

lemma length_applyForcePair (fs : List P2d) (i j : ℕ) (force : P2d) :
    (applyForcePair fs i j force).length = fs.length := by
  simp [applyForcePair]

lemma length_applyF (ps fs : List P2d) (f : P2d → P2d → P2d) (pr : ℕ × ℕ) :
    (applyF ps f fs pr).length = fs.length :=
  length_applyForcePair _ _ _ _

lemma length_foldl_applyF (ps : List P2d) (f : P2d → P2d → P2d) :
    ∀ (L : List (ℕ × ℕ)) (fs : List P2d),
      (L.foldl (applyF ps f) fs).length = fs.length := by
  intro L
  induction L with
  | nil => intro fs; rfl
  | cons pr rest ih =>
    intro fs
    rw [List.foldl_cons, ih, length_applyF]

lemma sumForces_foldl_applyF (ps : List P2d) (f : P2d → P2d → P2d) :
    ∀ (L : List (ℕ × ℕ)) (fs : List P2d),
      (∀ pr ∈ L, pr.1 < fs.length ∧ pr.2 < fs.length) →
      sumForces (L.foldl (applyF ps f) fs) = sumForces fs := by
  intro L
  induction L with
  | nil => intro fs _; rfl
  | cons pr rest ih =>
    intro fs hmem
    rw [List.foldl_cons, ih _ (fun q hq => by
        rw [length_applyF]
        exact hmem q (List.mem_cons_of_mem _ hq)),
      sumForces_applyF ps fs f pr (hmem pr (List.mem_cons_self _ _)).1
        (hmem pr (List.mem_cons_self _ _)).2]

lemma sumForces_zeroed (l : List P2d) :
    sumForces (l.map (fun _ => P2d.new)) = P2d.new := by
  unfold sumForces P2d.new
  ext <;> simp [List.map_map, Function.comp]

end SumForces

section PairMembership

lemma mem_pairIndices {n : ℕ} {pr : ℕ × ℕ} (h : pr ∈ pairIndices n) :
    pr.1 < pr.2 ∧ pr.2 < n := by
  unfold pairIndices at h
  rw [List.mem_flatMap] at h
  obtain ⟨i1, hi1, hmap⟩ := h
  rw [List.mem_map] at hmap
  obtain ⟨i2, hi2, rfl⟩ := hmap
  rw [List.mem_range] at hi1
  rw [List.mem_range'_1] at hi2
  omega

lemma mem_edgeTargets {n : ℕ} {ns : List (List ℕ)} {pr : ℕ × ℕ}
    (h : pr ∈ edgeTargets n ns) :
    pr.1 < n ∧ pr.2 ∈ ns.getD pr.1 [] := by
  unfold edgeTargets at h
  rw [List.mem_flatMap] at h
  obtain ⟨i1, hi1, hmap⟩ := h
  rw [List.mem_map] at hmap
  obtain ⟨i2, hi2, rfl⟩ := hmap
  rw [List.mem_range] at hi1
  exact ⟨hi1, hi2⟩

end PairMembership

section UpdFold

variable {σ : Type} (fs : List P2d) (f : σ → P2d → P2d → σ × P2d)

lemma updFold_length :
    ∀ (L : List ℕ) (ps : List P2d) (s : σ),
      (updFold fs f L (ps, s)).1.length = ps.length := by
  intro L
  induction L with
  | nil => intro ps s; rfl
  | cons i rest ih =>
    intro ps s
    rw [updFold, ih, List.length_set]

lemma updFold_getD_not_mem :
    ∀ (L : List ℕ) (ps : List P2d) (s : σ) (j : ℕ), j ∉ L →
      (updFold fs f L (ps, s)).1.getD j P2d.new = ps.getD j P2d.new := by
  intro L
  induction L with
  | nil => intro ps s j _; rfl
  | cons i rest ih =>
    intro ps s j hj
    rw [updFold, ih _ _ j (fun hmem => hj (List.mem_cons_of_mem _ hmem)),
      getD_set_ne _ _ _ _ _
        (by intro hij; exact hj (by rw [← hij]; exact List.mem_cons_self _ _))]

lemma updFold_getD_mem
    (hf : ∀ s s' p q, (f s p q).2 = (f s' p q).2) (s0 : σ) :
    ∀ (L : List ℕ), L.Nodup → ∀ (ps : List P2d) (s : σ) (j : ℕ),
      j ∈ L → j < ps.length →
      (updFold fs f L (ps, s)).1.getD j P2d.new =
        (f s0 (ps.getD j P2d.new) (fs.getD j P2d.new)).2 := by
  intro L
  induction L with
  | nil => intro _ ps s j hj; exact absurd hj (List.not_mem_nil j)
  | cons i rest ih =>
    intro hnd ps s j hj hlen
    rw [List.nodup_cons] at hnd
    by_cases hij : j = i
    · subst hij
      rw [updFold, updFold_getD_not_mem fs f rest _ _ j hnd.1,
        getD_set_self _ _ _ _ hlen]
      exact hf s s0 _ _ ▸ rfl
    · have hjr : j ∈ rest := by
        rcases List.mem_cons.mp hj with h | h
        · exact absurd h hij
        · exact h
      rw [updFold, ih hnd.2 _ _ j hjr (by simpa using hlen),
        getD_set_ne _ _ _ _ _ (fun h => hij h.symm)]

lemma updFold_snd
    (hg : ∀ s p p' q, (f s p q).1 = (f s p' q).1) :
    ∀ (L : List ℕ) (ps : List P2d) (s : σ),
      (updFold fs f L (ps, s)).2 =
        L.foldl (fun t i => (f t P2d.new (fs.getD i P2d.new)).1) s := by
  intro L
  induction L with
  | nil => intro ps s; rfl
  | cons i rest ih =>
    intro ps s
    rw [updFold, ih, List.foldl_cons, hg s _ P2d.new _]

end UpdFold

section Bridging

lemma length_accumulateT_forces (l : Layout) (kr ks : ℝ) :
    (l.accumulateT kr ks).forces.length = l.forces.length := by
  unfold Layout.accumulateT
  simp only
  rw [length_foldl_applyF, length_foldl_applyF, List.length_map]

lemma accumulateT_node_positions (l : Layout) (kr ks : ℝ) :
    (l.accumulateT kr ks).node_positions = l.node_positions := rfl

lemma accumulateT_node_neighbors (l : Layout) (kr ks : ℝ) :
    (l.accumulateT kr ks).node_neighbors = l.node_neighbors := rfl

lemma accumulateT_lock (l : Layout) (kr ks : ℝ) :
    (l.accumulateT kr ks).lock_first_n_positions = l.lock_first_n_positions := rfl

lemma foldlM_applyF_eq (ps : List P2d) (f : P2d → P2d → P2d) :
    ∀ (L : List (ℕ × ℕ)) (fs : List P2d),
      (∀ pr ∈ L, pr.2 < ps.length) → fs.length = ps.length →
      L.foldlM
        (fun fs pr =>
          if pr.2 < ps.length ∧ pr.2 < fs.length then
            some (applyF ps f fs pr)
          else none)
        fs = some (L.foldl (applyF ps f) fs) := by
  intro L
  induction L with
  | nil => intro fs _ _; rfl
  | cons pr rest ih =>
    intro fs hmem hlen
    have hpr : pr.2 < ps.length := hmem pr (List.mem_cons_self _ _)
    rw [List.foldlM_cons, if_pos ⟨hpr, hlen ▸ hpr⟩, Option.bind_eq_bind,
      Option.some_bind,
      ih _ (fun q hq => hmem q (List.mem_cons_of_mem _ hq))
        (by rw [length_applyF]; exact hlen),
      List.foldl_cons]

lemma iterate_eq_iterateT (l : Layout) (step kr ks : ℝ) (mn mx : P2d)
    (hW : WF l) :
    iterate l step kr ks mn mx = some (iterateT l step kr ks mn mx) := by
  obtain ⟨hf, hn, hidx⟩ := hW
  unfold iterate iterateT Layout.reset_forces Layout.update_force_each_node_pair
  simp only
  rw [if_pos (by simpa using hf.symm)]
  unfold Layout.update_force_each_edge
  simp only
  rw [Option.some_bind]
  rw [if_pos ⟨by rw [length_foldl_applyF, List.length_map]; exact hf.symm,
    le_of_eq hn.symm⟩]
  rw [foldlM_applyF_eq _ _ _ _
    (fun pr hpr => by
      obtain ⟨h1, h2⟩ := mem_edgeTargets hpr
      have hplt : pr.1 < l.node_neighbors.length := hn ▸ h1
      exact hidx _ (getD_mem _ _ _ hplt) _ h2)
    (by rw [length_foldl_applyF, List.length_map]; exact hf)]
  rw [Option.map_some', Option.some_bind]
  unfold Layout.update_positions_acc Layout.accumulateT
  simp only
  refine if_pos ?_ ▸ rfl
  rw [length_foldl_applyF, length_foldl_applyF, List.length_map]
  exact hf.symm

lemma WF_iterateT (l : Layout) (step kr ks : ℝ) (mn mx : P2d) (hW : WF l) :
    WF (iterateT l step kr ks mn mx).1 := by
  obtain ⟨hf, hn, hidx⟩ := hW
  unfold iterateT
  simp only
  constructor
  · rw [updFold_length, accumulateT_node_positions, length_accumulateT_forces]
    exact hf
  constructor
  · rw [updFold_length, accumulateT_node_positions]
    exact hn
  · intro nb hnb j hj
    rw [updFold_length, accumulateT_node_positions]
    exact hidx nb hnb j hj

lemma iterateT_forces (l : Layout) (step kr ks : ℝ) (mn mx : P2d) :
    (iterateT l step kr ks mn mx).1.forces = (l.accumulateT kr ks).forces := rfl

lemma iterateT_node_neighbors (l : Layout) (step kr ks : ℝ) (mn mx : P2d) :
    (iterateT l step kr ks mn mx).1.node_neighbors = l.node_neighbors := rfl

lemma iterateT_lock (l : Layout) (step kr ks : ℝ) (mn mx : P2d) :
    (iterateT l step kr ks mn mx).1.lock_first_n_positions =
      l.lock_first_n_positions := rfl

lemma iterateT_length (l : Layout) (step kr ks : ℝ) (mn mx : P2d) :
    (iterateT l step kr ks mn mx).1.node_positions.length =
      l.node_positions.length := by
  unfold iterateT
  simp only
  rw [updFold_length, accumulateT_node_positions]

end Bridging

section IterateChar

lemma integrateStep_pos_indep (step : ℝ) (mn mx : P2d) :
    ∀ (s s' : ℝ) (p q : P2d),
      (integrateStep step mn mx s p q).2 = (integrateStep step mn mx s' p q).2 := by
  intro s s' p q
  unfold integrateStep
  simp only
  split_ifs <;> rfl

lemma integrateStep_sum_indep (step : ℝ) (mn mx : P2d) :
    ∀ (s : ℝ) (p p' q : P2d),
      (integrateStep step mn mx s p q).1 = (integrateStep step mn mx s p' q).1 := by
  intro s p p' q
  unfold integrateStep
  simp only
  split_ifs <;> rfl

lemma integrateStep_sum (step : ℝ) (mn mx : P2d) (s : ℝ) (p q : P2d) :
    (integrateStep step mn mx s p q).1 =
      if 0 < Real.sqrt q.length_squared then s + step else s := by
  unfold integrateStep
  simp only
  split_ifs <;> rfl

lemma iterateT_getD_unlocked (l : Layout) (step kr ks : ℝ) (mn mx : P2d)
    (i : ℕ) (hK : l.lock_first_n_positions ≤ i)
    (hi : i < l.node_positions.length) :
    (iterateT l step kr ks mn mx).1.node_positions.getD i P2d.new =
      (integrateStep step mn mx 0 (l.node_positions.getD i P2d.new)
        ((l.accumulateT kr ks).forces.getD i P2d.new)).2 := by
  unfold iterateT
  simp only
  rw [updFold_getD_mem _ _ (integrateStep_pos_indep step mn mx) 0 _
    (List.nodup_range' _ _) _ _ _
    (by rw [List.mem_range'_1, accumulateT_lock, accumulateT_node_positions]; omega)
    (by rw [accumulateT_node_positions]; exact hi)]
  rw [accumulateT_node_positions]

lemma iterateT_getD_locked (l : Layout) (step kr ks : ℝ) (mn mx : P2d)
    (i : ℕ) (hi : i < l.lock_first_n_positions) :
    (iterateT l step kr ks mn mx).1.node_positions.getD i P2d.new =
      l.node_positions.getD i P2d.new := by
  unfold iterateT
  simp only
  rw [updFold_getD_not_mem _ _ _ _ _ _
    (by rw [List.mem_range'_1, accumulateT_lock]; omega)]
  rw [accumulateT_node_positions]

lemma iterateT_snd_eq (l : Layout) (step kr ks : ℝ) (mn mx : P2d) :
    (iterateT l step kr ks mn mx).2 =
      (List.range' l.lock_first_n_positions
          (l.node_positions.length - l.lock_first_n_positions)).foldl
        (fun t i =>
          if 0 < Real.sqrt
              ((l.accumulateT kr ks).forces.getD i P2d.new).length_squared
          then t + step else t) 0 := by
  unfold iterateT
  simp only
  rw [updFold_snd _ _ (fun s p p' q => integrateStep_sum_indep step mn mx s p p' q),
    accumulateT_lock, accumulateT_node_positions]
  have hfun : (fun (t : ℝ) (i : ℕ) =>
      (integrateStep step mn mx t P2d.new
        ((l.accumulateT kr ks).forces.getD i P2d.new)).1) =
      (fun (t : ℝ) (i : ℕ) =>
        if 0 < Real.sqrt
            ((l.accumulateT kr ks).forces.getD i P2d.new).length_squared
        then t + step else t) := by
    funext t i
    exact integrateStep_sum step mn mx t P2d.new _
  rw [hfun]

lemma foldl_step_count (step : ℝ) (g : ℕ → ℝ) :
    ∀ (L : List ℕ) (c : ℝ),
      L.foldl (fun t i => if 0 < g i then t + step else t) c =
        c + step * ((L.filter (fun i => decide (0 < g i))).length : ℝ) := by
  intro L
  induction L with
  | nil => intro c; simp
  | cons i rest ih =>
    intro c
    rw [List.foldl_cons, List.filter_cons]
    by_cases h : 0 < g i
    · rw [if_pos h, ih, if_pos (by simpa using h), List.length_cons]
      push_cast
      ring
    · rw [if_neg h, ih, if_neg (by simpa using h)]

lemma foldlM_applyF_some (ps : List P2d) (f : P2d → P2d → P2d) :
    ∀ (L : List (ℕ × ℕ)) (fs fs' : List P2d),
      L.foldlM
        (fun fs pr =>
          if pr.2 < ps.length ∧ pr.2 < fs.length then
            some (applyF ps f fs pr)
          else none)
        fs = some fs' →
      fs' = L.foldl (applyF ps f) fs := by
  intro L
  induction L with
  | nil =>
    intro fs fs' h
    exact (Option.some.inj h).symm
  | cons pr rest ih =>
    intro fs fs' h
    rw [List.foldlM_cons] at h
    by_cases hc : pr.2 < ps.length ∧ pr.2 < fs.length
    · rw [if_pos hc, Option.bind_eq_bind, Option.some_bind] at h
      rw [List.foldl_cons]
      exact ih _ _ h
    · rw [if_neg hc] at h
      simp at h

lemma iterate_eq_some_elim {l l' : Layout} {d step kr ks : ℝ} {mn mx : P2d}
    (h : iterate l step kr ks mn mx = some (l', d)) :
    l' = (iterateT l step kr ks mn mx).1 ∧ d = (iterateT l step kr ks mn mx).2 := by
  unfold iterate at h
  simp only at h
  cases hA : (l.reset_forces).update_force_each_node_pair
      (fun p1 p2 => repulsive_force p1 p2 kr) with
  | none => rw [hA] at h; simp at h
  | some l1 =>
    rw [hA, Option.some_bind] at h
    cases hB : l1.update_force_each_edge
        (fun p1 p2 => (attractive_force p1 p2 ks).scale (-1)) with
    | none => rw [hB] at h; simp at h
    | some l2 =>
      rw [hB, Option.some_bind] at h
      unfold Layout.update_force_each_node_pair at hA
      by_cases hcA : (l.reset_forces).node_positions.length =
          (l.reset_forces).forces.length
      case neg => rw [if_neg hcA] at hA; simp at hA
      rw [if_pos hcA] at hA
      have hl1 := Option.some.inj hA
      unfold Layout.update_force_each_edge at hB
      by_cases hcB : l1.node_positions.length = l1.forces.length ∧
          l1.node_positions.length ≤ l1.node_neighbors.length
      case neg => rw [if_neg hcB] at hB; simp at hB
      rw [if_pos hcB] at hB
      rw [Option.map_eq_some'] at hB
      obtain ⟨fs2, hfold, hl2⟩ := hB
      have hfs2 := foldlM_applyF_some _ _ _ _ _ hfold
      unfold Layout.update_positions_acc at h
      by_cases hcC : l2.node_positions.length = l2.forces.length
      case neg => rw [if_neg hcC] at h; simp at h
      rw [if_pos hcC] at h
      have hpair := Option.some.inj h
      have hL := congrArg Prod.fst hpair
      have hD := congrArg Prod.snd hpair
      simp only at hL hD
      subst hl1
      subst hfs2
      subst hl2
      constructor
      · rw [← hL]; rfl
      · rw [← hD]; rfl

end IterateChar

section BoxAndDriver

lemma sqrt_ls_pos_iff (q : P2d) :
    0 < Real.sqrt q.length_squared ↔ q.length_squared ≠ 0 := by
  rw [Real.sqrt_pos]
  constructor
  · exact fun h => ne_of_gt h
  · exact fun h => lt_of_le_of_ne (P2d.length_squared_nonneg q) (Ne.symm h)

lemma clip_within_mem (p mn mx : P2d) (hx : mn.x ≤ mx.x) (hy : mn.y ≤ mx.y) :
    inBox mn mx (p.clip_within mn mx) := by
  unfold inBox P2d.clip_within
  simp only
  refine ⟨?_, ?_, ?_, ?_⟩
  · split_ifs with h1 h2
    · exact le_refl _
    · exact hx
    · exact le_of_not_lt h1
  · split_ifs with h1 h2
    · exact hx
    · exact le_refl _
    · exact not_lt.mp h2
  · split_ifs with h1 h2
    · exact le_refl _
    · exact hy
    · exact le_of_not_lt h1
  · split_ifs with h1 h2
    · exact hy
    · exact le_refl _
    · exact not_lt.mp h2

lemma integrateStep_pos_inBox (step : ℝ) (mn mx : P2d) (s : ℝ) (p q : P2d)
    (hx : mn.x ≤ mx.x) (hy : mn.y ≤ mx.y) :
    inBox mn mx (integrateStep step mn mx s p q).2 := by
  unfold integrateStep
  simp only
  split_ifs
  · exact clip_within_mem _ _ _ hx hy
  · exact clip_within_mem _ _ _ hx hy

lemma layout_aux_some_induction (sf : ℕ → ℝ) (kr ks eps : ℝ) (mn mx : P2d)
    (P : Layout → Prop)
    (hstep : ∀ (l l' : Layout) (d : ℝ) (s : ℝ),
      iterate l s kr ks mn mx = some (l', d) → P l → P l') :
    ∀ (fuel iter : ℕ) (l lf : Layout),
      layout_aux sf kr ks eps mn mx fuel iter l = some lf → P l → P lf := by
  intro fuel
  induction fuel with
  | zero =>
    intro iter l lf h hP
    rw [layout_aux] at h
    rw [← Option.some.inj h]
    exact hP
  | succ fuel ih =>
    intro iter l lf h hP
    rw [layout_aux] at h
    cases hit : iterate l (sf iter) kr ks mn mx with
    | none => rw [hit] at h; simp at h
    | some r =>
      obtain ⟨l2, dd⟩ := r
      rw [hit] at h
      change (if dd < eps then some l2
        else layout_aux sf kr ks eps mn mx fuel (iter + 1) l2) = some lf at h
      by_cases hd : dd < eps
      · rw [if_pos hd] at h
        rw [← Option.some.inj h]
        exact hstep l l2 dd (sf iter) hit hP
      · rw [if_neg hd] at h
        exact ih (iter + 1) l2 lf h (hstep l l2 dd (sf iter) hit hP)

end BoxAndDriver

section ConcreteEval

lemma WF_single (fp p : P2d) (K : ℕ) : WF ⟨[fp], [p], [[]], K⟩ := by
  refine ⟨rfl, rfl, ?_⟩
  intro nb hnb j hj
  rw [List.mem_singleton] at hnb
  subst hnb
  simp at hj

lemma accumulateT_single (fp p : P2d) (kr ks : ℝ) (K : ℕ) :
    Layout.accumulateT ⟨[fp], [p], [[]], K⟩ kr ks = ⟨[P2d.new], [p], [[]], K⟩ :=
  rfl

lemma new_length_squared : P2d.new.length_squared = 0 := by
  norm_num [P2d.new, P2d.length_squared]

lemma sqrt_new_not_pos : ¬ (0 : ℝ) < Real.sqrt P2d.new.length_squared := by
  rw [new_length_squared, Real.sqrt_zero]
  exact lt_irrefl 0

lemma integrateStep_zero_force (step : ℝ) (mn mx : P2d) (s : ℝ) (p : P2d) :
    integrateStep step mn mx s p P2d.new = (s, p.clip_within mn mx) := by
  unfold integrateStep
  simp only
  rw [if_neg sqrt_new_not_pos]

lemma iterateT_single_unlocked (fp p : P2d) (step kr ks : ℝ) (mn mx : P2d) :
    iterateT ⟨[fp], [p], [[]], 0⟩ step kr ks mn mx =
      (⟨[P2d.new], [p.clip_within mn mx], [[]], 0⟩, 0) := by
  unfold iterateT
  rw [accumulateT_single]
  show ((⟨[P2d.new],
      (updFold [P2d.new] (integrateStep step mn mx) [0] ([p], 0)).1,
      [[]], 0⟩ : Layout),
    (updFold [P2d.new] (integrateStep step mn mx) [0] ([p], 0)).2) = _
  unfold updFold
  rw [show List.getD [p] 0 P2d.new = p from rfl,
    show List.getD [P2d.new] 0 P2d.new = P2d.new from rfl,
    integrateStep_zero_force]
  rfl

lemma iterateT_single_locked (fp p : P2d) (step kr ks : ℝ) (mn mx : P2d)
    (K : ℕ) (hK : 1 ≤ K) :
    iterateT ⟨[fp], [p], [[]], K⟩ step kr ks mn mx =
      (⟨[P2d.new], [p], [[]], K⟩, 0) := by
  unfold iterateT
  rw [accumulateT_single]
  show ((⟨[P2d.new],
      (updFold [P2d.new] (integrateStep step mn mx)
        (List.range' K (1 - K)) ([p], 0)).1, [[]], K⟩ : Layout),
    (updFold [P2d.new] (integrateStep step mn mx)
      (List.range' K (1 - K)) ([p], 0)).2) = _
  rw [show (1 - K) = 0 by omega, show List.range' K 0 = [] from List.range'_zero]
  rfl

end ConcreteEval

/-- C1: under a successful iteration of the integration pass, every
unlocked node `i ≥ K` moves to `old + (step / L) * accumulator[i]` clipped
into the box when `L = sqrt(accumulator[i].length_squared()) > 0` (a
pre-clip displacement of exactly `step` in the force direction), and stays
at its old position (then clipped) when `L = 0`.  The accumulator is read
off the returned layout, whose `forces` field is exactly the iteration's
accumulated net force. -/
theorem claim_C1 (l l' : Layout) (d step kr ks : ℝ) (mn mx : P2d) (i : ℕ)
    (h : iterate l step kr ks mn mx = some (l', d))
    (hK : l.lock_first_n_positions ≤ i) (hi : i < l.node_positions.length) :
    l'.node_positions.getD i P2d.new =
      if 0 < Real.sqrt (l'.forces.getD i P2d.new).length_squared then
        ((l.node_positions.getD i P2d.new).add_scaled
            (step / Real.sqrt (l'.forces.getD i P2d.new).length_squared)
            (l'.forces.getD i P2d.new)).clip_within mn mx
      else
        (l.node_positions.getD i P2d.new).clip_within mn mx := by
  obtain ⟨h1, h2⟩ := iterate_eq_some_elim h
  subst h1
  rw [iterateT_forces, iterateT_getD_unlocked l step kr ks mn mx i hK hi]
  unfold integrateStep
  simp only
  split_ifs with hc
  · rfl
  · rfl

/-- Witness for C1: one free node at `(2, 2)` in the unit box with no
neighbors; the accumulator is zero, so the new position is the old
position clipped to `(1, 1)`. -/
theorem claim_C1_witness :
    iterate ⟨[P2d.new], [⟨2, 2⟩], [[]], 0⟩ 1 1 1 ⟨0, 0⟩ ⟨1, 1⟩ =
      some (⟨[P2d.new], [⟨1, 1⟩], [[]], 0⟩, 0) ∧
    (⟨[P2d.new], [⟨1, 1⟩], [[]], 0⟩ : Layout).node_positions.getD 0 P2d.new =
      if 0 < Real.sqrt
          (((⟨[P2d.new], [⟨1, 1⟩], [[]], 0⟩ : Layout).forces.getD 0
            P2d.new)).length_squared then
        (((⟨[P2d.new], [⟨2, 2⟩], [[]], 0⟩ : Layout).node_positions.getD 0
            P2d.new).add_scaled
            (1 / Real.sqrt
              (((⟨[P2d.new], [⟨1, 1⟩], [[]], 0⟩ : Layout).forces.getD 0
                P2d.new)).length_squared)
            ((⟨[P2d.new], [⟨1, 1⟩], [[]], 0⟩ : Layout).forces.getD 0
              P2d.new)).clip_within ⟨0, 0⟩ ⟨1, 1⟩
      else
        (((⟨[P2d.new], [⟨2, 2⟩], [[]], 0⟩ : Layout).node_positions.getD 0
          P2d.new)).clip_within ⟨0, 0⟩ ⟨1, 1⟩ := by
  have hrun : iterate ⟨[P2d.new], [⟨2, 2⟩], [[]], 0⟩ 1 1 1 ⟨0, 0⟩ ⟨1, 1⟩ =
      some (⟨[P2d.new], [⟨1, 1⟩], [[]], 0⟩, 0) := by
    rw [iterate_eq_iterateT _ _ _ _ _ _ (WF_single _ _ _),
      iterateT_single_unlocked]
    have hclip : (⟨2, 2⟩ : P2d).clip_within ⟨0, 0⟩ ⟨1, 1⟩ = ⟨1, 1⟩ := by
      unfold P2d.clip_within
      norm_num
    rw [hclip]
  exact ⟨hrun, claim_C1 _ _ _ _ _ _ _ _ 0 hrun (le_refl 0) (by norm_num)⟩

/-- C10: the total movement returned by a successful iteration equals
`step` times the number of unlocked node indices whose accumulated net
force has nonzero squared length; clipping plays no role in the reported
total. -/
theorem claim_C10 (l l' : Layout) (d step kr ks : ℝ) (mn mx : P2d)
    (h : iterate l step kr ks mn mx = some (l', d)) :
    d = step * (((List.range' l.lock_first_n_positions
        (l.node_positions.length - l.lock_first_n_positions)).filter
        (fun i => decide ((l'.forces.getD i P2d.new).length_squared ≠ 0))).length
        : ℝ) := by
  obtain ⟨h1, h2⟩ := iterate_eq_some_elim h
  subst h1
  rw [h2, iterateT_forces, iterateT_snd_eq, foldl_step_count, zero_add]
  have hfilter :
      (List.range' l.lock_first_n_positions
          (l.node_positions.length - l.lock_first_n_positions)).filter
        (fun i => decide (0 < Real.sqrt
          ((l.accumulateT kr ks).forces.getD i P2d.new).length_squared)) =
      (List.range' l.lock_first_n_positions
          (l.node_positions.length - l.lock_first_n_positions)).filter
        (fun i => decide
          (((l.accumulateT kr ks).forces.getD i P2d.new).length_squared ≠ 0)) :=
    List.filter_congr (fun i _ => decide_eq_decide.mpr (sqrt_ls_pos_iff _))
  rw [hfilter]

/-- Witness for C10: one free node with zero net force; the reported
movement is `0 = step * 0`. -/
theorem claim_C10_witness :
    iterate ⟨[P2d.new], [⟨1 / 2, 1 / 2⟩], [[]], 0⟩ 2 1 1 ⟨0, 0⟩ ⟨1, 1⟩ =
      some (⟨[P2d.new],
        [(⟨1 / 2, 1 / 2⟩ : P2d).clip_within ⟨0, 0⟩ ⟨1, 1⟩], [[]], 0⟩, 0) ∧
    (0 : ℝ) = 2 * (((List.range'
        (⟨[P2d.new], [⟨1 / 2, 1 / 2⟩], [[]], 0⟩ : Layout).lock_first_n_positions
        ((⟨[P2d.new], [⟨1 / 2, 1 / 2⟩], [[]], 0⟩ : Layout).node_positions.length -
          (⟨[P2d.new], [⟨1 / 2, 1 / 2⟩], [[]], 0⟩ :
            Layout).lock_first_n_positions)).filter
        (fun i => decide (((⟨[P2d.new],
            [(⟨1 / 2, 1 / 2⟩ : P2d).clip_within ⟨0, 0⟩ ⟨1, 1⟩], [[]], 0⟩ :
            Layout).forces.getD i P2d.new).length_squared ≠ 0))).length : ℝ) := by
  have hrun : iterate ⟨[P2d.new], [⟨1 / 2, 1 / 2⟩], [[]], 0⟩ 2 1 1 ⟨0, 0⟩ ⟨1, 1⟩ =
      some (⟨[P2d.new],
        [(⟨1 / 2, 1 / 2⟩ : P2d).clip_within ⟨0, 0⟩ ⟨1, 1⟩], [[]], 0⟩, 0) := by
    rw [iterate_eq_iterateT _ _ _ _ _ _ (WF_single _ _ _),
      iterateT_single_unlocked]
  exact ⟨hrun, claim_C10 _ _ _ _ _ _ _ _ hrun⟩

/-- C7: with the accumulators reset and a single pairwise-repulsion
accumulation pass run on a freshly constructed layout (lock count 0), the
componentwise vector sum of all accumulators is the zero vector, for any
`n ≥ 1` positions and any `k_r`: each visited pair adds `+F` to one
accumulator and `-F` to the other. -/
theorem claim_C7 (ps : List P2d) (ns : List (List ℕ)) (kr : ℝ)
    (l0 l1 : Layout) (hn : 1 ≤ ps.length)
    (h0 : Layout.new ps ns = some l0)
    (h1 : l0.reset_forces.update_force_each_node_pair
      (fun p1 p2 => repulsive_force p1 p2 kr) = some l1) :
    sumForces l1.forces = P2d.new := by
  unfold Layout.new at h0
  simp only at h0
  by_cases hc : ns.length = ps.length
  case neg => rw [if_neg hc] at h0; simp at h0
  rw [if_pos hc] at h0
  have hl0 := Option.some.inj h0
  unfold Layout.update_force_each_node_pair at h1
  by_cases hc2 : l0.reset_forces.node_positions.length =
      l0.reset_forces.forces.length
  case neg => rw [if_neg hc2] at h1; simp at h1
  rw [if_pos hc2] at h1
  have hl1 := Option.some.inj h1
  rw [← hl1]
  have hfs : l0.reset_forces.forces =
      ((List.range ps.length).map (fun _ => P2d.new)).map (fun _ => P2d.new) := by
    rw [← hl0]
    rfl
  have hpos : l0.reset_forces.node_positions = ps := by
    rw [← hl0]
    rfl

  show sumForces (List.foldl _ _ _) = P2d.new
  rw [hpos, hfs]
  rw [sumForces_foldl_applyF _ _ _ _ (fun pr hpr => by
    obtain ⟨h12, h2n⟩ := mem_pairIndices hpr
    simp only [List.length_map, List.length_range]
    omega)]
  exact sumForces_zeroed _

/-- Witness for C7: two nodes at `(0,0)` and `(1,0)` with `k_r = 1`; the
pair pass produces accumulators `(-1,0)` and `(1,0)`, which sum to zero. -/
theorem claim_C7_witness :
    (1 ≤ ([⟨0, 0⟩, ⟨1, 0⟩] : List P2d).length) ∧
    sumForces (⟨[⟨-1, 0⟩, ⟨1, 0⟩], [⟨0, 0⟩, ⟨1, 0⟩], [[], []], 0⟩ :
      Layout).forces = P2d.new := by
  have h0 : Layout.new [(⟨0, 0⟩ : P2d), ⟨1, 0⟩] [[], []] =
      some ⟨[P2d.new, P2d.new], [⟨0, 0⟩, ⟨1, 0⟩], [[], []], 0⟩ := rfl
  have hrep : repulsive_force ⟨0, 0⟩ ⟨1, 0⟩ 1 = ⟨-1, 0⟩ := by
    unfold repulsive_force P2d.sub P2d.length_squared P2d.scale
    norm_num
  have h1 : (⟨[P2d.new, P2d.new], [⟨0, 0⟩, ⟨1, 0⟩], [[], []], 0⟩ :
        Layout).reset_forces.update_force_each_node_pair
        (fun p1 p2 => repulsive_force p1 p2 1) =
      some ⟨[⟨-1, 0⟩, ⟨1, 0⟩], [⟨0, 0⟩, ⟨1, 0⟩], [[], []], 0⟩ := by
    unfold Layout.reset_forces Layout.update_force_each_node_pair applyF
      applyForcePair
    norm_num [show pairIndices 2 = [(0, 1)] from rfl, hrep, P2d.add_scaled,
      P2d.new, List.getD]
  exact ⟨by norm_num, claim_C7 [⟨0, 0⟩, ⟨1, 0⟩] [[], []] 1 _ _ (by norm_num)
    h0 h1⟩

section DriverLemmas

variable (sf : ℕ → ℝ) (kr ks eps : ℝ) (mn mx : P2d)

lemma stateT_zero (l : Layout) (iter : ℕ) :
    stateT sf kr ks mn mx l iter 0 = l := rfl

lemma stateT_succ (l : Layout) (iter k : ℕ) :
    stateT sf kr ks mn mx l iter (k + 1) =
      (iterateT (stateT sf kr ks mn mx l iter k) (sf (iter + k)) kr ks mn mx).1 :=
  rfl

lemma layout_auxT_zero (iter : ℕ) (l : Layout) :
    layout_auxT sf kr ks eps mn mx 0 iter l = l := rfl

lemma layout_auxT_succ (fuel iter : ℕ) (l : Layout) :
    layout_auxT sf kr ks eps mn mx (fuel + 1) iter l =
      if (iterateT l (sf iter) kr ks mn mx).2 < eps then
        (iterateT l (sf iter) kr ks mn mx).1
      else
        layout_auxT sf kr ks eps mn mx fuel (iter + 1)
          (iterateT l (sf iter) kr ks mn mx).1 := rfl

lemma layoutIterCount_zero (iter : ℕ) (l : Layout) :
    layoutIterCount sf kr ks eps mn mx 0 iter l = 0 := rfl

lemma layoutIterCount_succ (fuel iter : ℕ) (l : Layout) :
    layoutIterCount sf kr ks eps mn mx (fuel + 1) iter l =
      if (iterateT l (sf iter) kr ks mn mx).2 < eps then 1
      else 1 + layoutIterCount sf kr ks eps mn mx fuel (iter + 1)
        (iterateT l (sf iter) kr ks mn mx).1 := rfl

lemma layoutConverged_zero (iter : ℕ) (l : Layout) :
    layoutConverged sf kr ks eps mn mx 0 iter l = false := rfl

lemma layoutConverged_succ (fuel iter : ℕ) (l : Layout) :
    layoutConverged sf kr ks eps mn mx (fuel + 1) iter l =
      if (iterateT l (sf iter) kr ks mn mx).2 < eps then true
      else layoutConverged sf kr ks eps mn mx fuel (iter + 1)
        (iterateT l (sf iter) kr ks mn mx).1 := rfl

lemma layout_aux_eq_auxT :
    ∀ (fuel iter : ℕ) (l : Layout), WF l →
      layout_aux sf kr ks eps mn mx fuel iter l =
        some (layout_auxT sf kr ks eps mn mx fuel iter l) := by
  intro fuel
  induction fuel with
  | zero =>
    intro iter l hW
    rw [layout_aux, layout_auxT_zero]
  | succ fuel ih =>
    intro iter l hW
    rw [layout_aux, iterate_eq_iterateT l (sf iter) kr ks mn mx hW,
      layout_auxT_succ]
    show (if (iterateT l (sf iter) kr ks mn mx).2 < eps
        then some (iterateT l (sf iter) kr ks mn mx).1
        else layout_aux sf kr ks eps mn mx fuel (iter + 1)
          (iterateT l (sf iter) kr ks mn mx).1) = _
    by_cases hd : (iterateT l (sf iter) kr ks mn mx).2 < eps
    · rw [if_pos hd, if_pos hd]
    · rw [if_neg hd, if_neg hd]
      exact ih (iter + 1) _ (WF_iterateT l (sf iter) kr ks mn mx hW)

lemma stateT_shift (l : Layout) (iter : ℕ) :
    ∀ k, stateT sf kr ks mn mx l iter (k + 1) =
      stateT sf kr ks mn mx (iterateT l (sf iter) kr ks mn mx).1 (iter + 1) k := by
  intro k
  induction k with
  | zero =>
    rw [stateT_succ, stateT_zero, stateT_zero, Nat.add_zero]
  | succ k ih =>
    rw [stateT_succ, ih, stateT_succ,
      show iter + (k + 1) = (iter + 1) + k by omega]

lemma moveT_shift (l : Layout) (iter k : ℕ) :
    moveT sf kr ks mn mx l iter (k + 1) =
      moveT sf kr ks mn mx (iterateT l (sf iter) kr ks mn mx).1 (iter + 1) k := by
  unfold moveT
  rw [stateT_shift, show iter + (k + 1) = (iter + 1) + k by omega]

lemma moveT_zero_iterate (l : Layout) (iter : ℕ) :
    moveT sf kr ks mn mx l iter 0 = (iterateT l (sf iter) kr ks mn mx).2 := by
  unfold moveT
  rw [stateT_zero, Nat.add_zero]

lemma auxT_exhaust :
    ∀ (fuel iter : ℕ) (l : Layout),
      (∀ k, k < fuel → ¬ moveT sf kr ks mn mx l iter k < eps) →
      layout_auxT sf kr ks eps mn mx fuel iter l =
        stateT sf kr ks mn mx l iter fuel := by
  intro fuel
  induction fuel with
  | zero =>
    intro iter l _
    rw [layout_auxT_zero, stateT_zero]
  | succ fuel ih =>
    intro iter l h
    have hd0 : ¬ (iterateT l (sf iter) kr ks mn mx).2 < eps := by
      rw [← moveT_zero_iterate]
      exact h 0 (by omega)
    rw [layout_auxT_succ, if_neg hd0,
      ih (iter + 1) _ (fun k hk => by
        rw [← moveT_shift]
        exact h (k + 1) (by omega)),
      ← stateT_shift]

lemma auxT_converge :
    ∀ (k fuel iter : ℕ) (l : Layout), k < fuel →
      moveT sf kr ks mn mx l iter k < eps →
      (∀ j, j < k → ¬ moveT sf kr ks mn mx l iter j < eps) →
      layout_auxT sf kr ks eps mn mx fuel iter l =
        stateT sf kr ks mn mx l iter (k + 1) := by
  intro k
  induction k with
  | zero =>
    intro fuel iter l hk hmv _
    obtain ⟨fuel1, rfl⟩ : ∃ f, fuel = f + 1 := ⟨fuel - 1, by omega⟩
    rw [moveT_zero_iterate] at hmv
    rw [layout_auxT_succ, if_pos hmv, stateT_succ, stateT_zero, Nat.add_zero]
  | succ k ih =>
    intro fuel iter l hk hmv hprev
    obtain ⟨fuel1, rfl⟩ : ∃ f, fuel = f + 1 := ⟨fuel - 1, by omega⟩
    have hd0 : ¬ (iterateT l (sf iter) kr ks mn mx).2 < eps := by
      rw [← moveT_zero_iterate]
      exact hprev 0 (by omega)
    rw [layout_auxT_succ, if_neg hd0,
      ih fuel1 (iter + 1) _ (by omega)
        (by rw [← moveT_shift]; exact hmv)
        (fun j hj => by
          rw [← moveT_shift]
          exact hprev (j + 1) (by omega)),
      ← stateT_shift]

lemma layoutIterCount_le :
    ∀ (fuel iter : ℕ) (l : Layout),
      layoutIterCount sf kr ks eps mn mx fuel iter l ≤ fuel := by
  intro fuel
  induction fuel with
  | zero =>
    intro iter l
    rw [layoutIterCount_zero]
  | succ fuel ih =>
    intro iter l
    rw [layoutIterCount_succ]
    split_ifs
    · omega
    · have := ih (iter + 1) (iterateT l (sf iter) kr ks mn mx).1
      omega

end DriverLemmas

/-- C4: with the linear cooling schedule
`step(iter) = T0 - iter * (T0 / max_iter)`, the driver (a) performs at
most `max_iter` iterations, (b) exhausts the budget (returning normally,
not an error) when no iteration's total movement drops strictly below
`epsilon`, ending in the state after exactly `max_iter` iterations, and
(c) stops right after the first iteration `k` whose total movement is
strictly below `epsilon`, ending in the state after `k + 1` iterations. -/
theorem claim_C4 (T0 eps kr ks : ℝ) (mn mx : P2d) (max_iter : ℕ)
    (l0 : Layout) (hW : WF l0) :
    layoutIterCount (fun it => T0 - (it : ℝ) * (T0 / (max_iter : ℝ))) kr ks eps
        mn mx max_iter 0 l0 ≤ max_iter ∧
    ((∀ k, k < max_iter →
        ¬ moveT (fun it => T0 - (it : ℝ) * (T0 / (max_iter : ℝ))) kr ks mn mx
          l0 0 k < eps) →
      layout l0 (fun it => T0 - (it : ℝ) * (T0 / (max_iter : ℝ))) max_iter eps
          kr ks mn mx =
        some (stateT (fun it => T0 - (it : ℝ) * (T0 / (max_iter : ℝ))) kr ks
          mn mx l0 0 max_iter)) ∧
    (∀ k, k < max_iter →
      moveT (fun it => T0 - (it : ℝ) * (T0 / (max_iter : ℝ))) kr ks mn mx
        l0 0 k < eps →
      (∀ j, j < k →
        ¬ moveT (fun it => T0 - (it : ℝ) * (T0 / (max_iter : ℝ))) kr ks mn mx
          l0 0 j < eps) →
      layout l0 (fun it => T0 - (it : ℝ) * (T0 / (max_iter : ℝ))) max_iter eps
          kr ks mn mx =
        some (stateT (fun it => T0 - (it : ℝ) * (T0 / (max_iter : ℝ))) kr ks
          mn mx l0 0 (k + 1))) := by
  refine ⟨layoutIterCount_le _ _ _ _ _ _ _ _ _, ?_, ?_⟩
  · intro hall
    unfold layout
    rw [layout_aux_eq_auxT _ _ _ _ _ _ max_iter 0 l0 hW,
      auxT_exhaust _ _ _ _ _ _ max_iter 0 l0 hall]
  · intro k hk hmv hprev
    unfold layout
    rw [layout_aux_eq_auxT _ _ _ _ _ _ max_iter 0 l0 hW,
      auxT_converge _ _ _ _ _ _ k max_iter 0 l0 hk hmv hprev]

/-- Witness for C4: a one-node layout, `T0 = 1`, `max_iter = 1`; the
iteration-count bound instance. -/
theorem claim_C4_witness :
    WF ⟨[P2d.new], [P2d.new], [[]], 0⟩ ∧
    layoutIterCount (fun it => 1 - (it : ℝ) * (1 / ((1 : ℕ) : ℝ))) 1 1 1
      ⟨0, 0⟩ ⟨1, 1⟩ 1 0 ⟨[P2d.new], [P2d.new], [[]], 0⟩ ≤ 1 :=
  ⟨WF_single _ _ _,
    (claim_C4 1 1 1 1 ⟨0, 0⟩ ⟨1, 1⟩ 1 ⟨[P2d.new], [P2d.new], [[]], 0⟩
      (WF_single _ _ _)).1⟩

/-- C8 counterexample: the claim asserts convergence at iteration 1 for
every `epsilon ≥ 0`, but the convergence test is strict
(`dist_moved < converge_eps`), so with `epsilon = 0` a single motionless
node never converges: with budget 2 the loop performs 2 iterations and
ends Exhausted, not Converged at iteration 1. -/
theorem claim_C8_counterexample :
    layoutIterCount (fun _ => (1 : ℝ)) 1 1 0 ⟨0, 0⟩ ⟨1, 1⟩ 2 0
      ⟨[P2d.new], [P2d.new], [[]], 0⟩ = 2 ∧
    layoutConverged (fun _ => (1 : ℝ)) 1 1 0 ⟨0, 0⟩ ⟨1, 1⟩ 2 0
      ⟨[P2d.new], [P2d.new], [[]], 0⟩ = false := by
  have hclip : P2d.new.clip_within ⟨0, 0⟩ ⟨1, 1⟩ = P2d.new := by
    unfold P2d.clip_within P2d.new
    norm_num
  have hit : iterateT ⟨[P2d.new], [P2d.new], [[]], 0⟩ 1 1 1 ⟨0, 0⟩ ⟨1, 1⟩ =
      (⟨[P2d.new], [P2d.new], [[]], 0⟩, 0) := by
    rw [iterateT_single_unlocked, hclip]
  constructor
  · rw [show (2 : ℕ) = 1 + 1 from rfl, layoutIterCount_succ, hit]
    norm_num [layoutIterCount_succ, layoutIterCount_zero, hit]
  · rw [show (2 : ℕ) = 1 + 1 from rfl, layoutConverged_succ, hit]
    norm_num [layoutConverged_succ, layoutConverged_zero, hit]

/-- C8 amended: for a single node with no edges, one iteration reports
total movement exactly 0, and for every `epsilon > 0` (strictly positive:
the convergence test is strict) and any iteration budget `max_iter ≥ 1`,
the driver stops after exactly 1 iteration, Converged. -/
theorem claim_C8 (p : P2d) (K : ℕ) (sf : ℕ → ℝ) (eps kr ks : ℝ)
    (mn mx : P2d) (mi : ℕ) (heps : 0 < eps) (hmi : 1 ≤ mi) :
    (iterateT ⟨[P2d.new], [p], [[]], K⟩ (sf 0) kr ks mn mx).2 = 0 ∧
    layout ⟨[P2d.new], [p], [[]], K⟩ sf mi eps kr ks mn mx =
      some (iterateT ⟨[P2d.new], [p], [[]], K⟩ (sf 0) kr ks mn mx).1 ∧
    layoutIterCount sf kr ks eps mn mx mi 0 ⟨[P2d.new], [p], [[]], K⟩ = 1 ∧
    layoutConverged sf kr ks eps mn mx mi 0 ⟨[P2d.new], [p], [[]], K⟩ =
      true := by
  obtain ⟨m, rfl⟩ : ∃ m, mi = m + 1 := ⟨mi - 1, by omega⟩
  have hd : (iterateT ⟨[P2d.new], [p], [[]], K⟩ (sf 0) kr ks mn mx).2 = 0 := by
    cases K with
    | zero => rw [iterateT_single_unlocked]
    | succ k => rw [iterateT_single_locked _ _ _ _ _ _ _ _ (by omega)]
  have hdlt : (iterateT ⟨[P2d.new], [p], [[]], K⟩ (sf 0) kr ks mn mx).2 <
      eps := by
    rw [hd]
    exact heps
  refine ⟨hd, ?_, ?_, ?_⟩
  · unfold layout
    rw [layout_aux_eq_auxT _ _ _ _ _ _ (m + 1) 0 _ (WF_single _ _ _),
      layout_auxT_succ, if_pos hdlt]
  · rw [layoutIterCount_succ, if_pos hdlt]
  · rw [layoutConverged_succ, if_pos hdlt]

/-- Witness for C8 amended: `p = (0,0)`, `K = 0`, constant step 1,
`epsilon = 1`, budget 3. -/
theorem claim_C8_witness :
    (0 : ℝ) < 1 ∧ 1 ≤ 3 ∧
    ((iterateT ⟨[P2d.new], [P2d.new], [[]], 0⟩ ((fun _ => (1 : ℝ)) 0) 1 1
        ⟨0, 0⟩ ⟨1, 1⟩).2 = 0 ∧
      layout ⟨[P2d.new], [P2d.new], [[]], 0⟩ (fun _ => (1 : ℝ)) 3 1 1 1
          ⟨0, 0⟩ ⟨1, 1⟩ =
        some (iterateT ⟨[P2d.new], [P2d.new], [[]], 0⟩ ((fun _ => (1 : ℝ)) 0)
          1 1 ⟨0, 0⟩ ⟨1, 1⟩).1 ∧
      layoutIterCount (fun _ => (1 : ℝ)) 1 1 1 ⟨0, 0⟩ ⟨1, 1⟩ 3 0
        ⟨[P2d.new], [P2d.new], [[]], 0⟩ = 1 ∧
      layoutConverged (fun _ => (1 : ℝ)) 1 1 1 ⟨0, 0⟩ ⟨1, 1⟩ 3 0
        ⟨[P2d.new], [P2d.new], [[]], 0⟩ = true) :=
  ⟨by norm_num, by norm_num,
    claim_C8 P2d.new 0 (fun _ => (1 : ℝ)) 1 1 1 ⟨0, 0⟩ ⟨1, 1⟩ 3 (by norm_num)
      (by norm_num)⟩

/-- C5 counterexample: the claim promises every coordinate ends inside
`[min, max]` for every valid input, but a locked node is never clipped:
with one node locked at `(2,2)` and box `[0,1]^2`, after an iteration the
position is still `(2,2)`, outside the box. -/
theorem claim_C5_counterexample :
    layout ⟨[P2d.new], [⟨2, 2⟩], [[]], 1⟩ (fun _ => (1 : ℝ)) 1 1 1 1
        ⟨0, 0⟩ ⟨1, 1⟩ = some ⟨[P2d.new], [⟨2, 2⟩], [[]], 1⟩ ∧
    ¬ inBox ⟨0, 0⟩ ⟨1, 1⟩
      ((⟨[P2d.new], [⟨2, 2⟩], [[]], 1⟩ : Layout).node_positions.getD 0
        P2d.new) := by
  constructor
  · unfold layout
    rw [layout_aux_eq_auxT _ _ _ _ _ _ 1 0 _ (WF_single _ _ _)]
    have hstep := layout_auxT_succ (fun _ => (1 : ℝ)) 1 1 1 ⟨0, 0⟩ ⟨1, 1⟩ 0 0
      ⟨[P2d.new], [⟨2, 2⟩], [[]], 1⟩
    rw [iterateT_single_locked _ _ _ _ _ _ _ _ (le_refl 1)] at hstep
    rw [if_pos (by norm_num)] at hstep
    exact congrArg some hstep
  · intro hbox
    obtain ⟨_, h2, _⟩ := hbox
    norm_num [List.getD_cons_zero] at h2

/-- C5 amended: when additionally every initial position lies inside the
box `[min, max]` (componentwise, with `min ≤ max`), then after any
successful run of the layout routine the positions sequence still has
length `n` and every coordinate of every position lies within
`[min, max]`.  (Without the initial-containment premise the claim fails
for locked nodes, which are never clipped, and for runs of zero
iterations.) -/
theorem claim_C5_amended (l0 lf : Layout) (sf : ℕ → ℝ) (mi : ℕ)
    (eps kr ks : ℝ) (mn mx : P2d)
    (hx : mn.x ≤ mx.x) (hy : mn.y ≤ mx.y)
    (hinit : ∀ i, i < l0.node_positions.length →
      inBox mn mx (l0.node_positions.getD i P2d.new))
    (hrun : layout l0 sf mi eps kr ks mn mx = some lf) :
    lf.node_positions.length = l0.node_positions.length ∧
    ∀ i, i < l0.node_positions.length →
      inBox mn mx (lf.node_positions.getD i P2d.new) := by
  unfold layout at hrun
  exact layout_aux_some_induction sf kr ks eps mn mx
    (fun l => l.node_positions.length = l0.node_positions.length ∧
      ∀ i, i < l0.node_positions.length →
        inBox mn mx (l.node_positions.getD i P2d.new))
    (fun lA lB d s hit hP => by
      obtain ⟨h1, _⟩ := iterate_eq_some_elim hit
      subst h1
      refine ⟨by rw [iterateT_length]; exact hP.1, ?_⟩
      intro i hi
      by_cases hK : i < lA.lock_first_n_positions
      · rw [iterateT_getD_locked _ _ _ _ _ _ _ hK]
        exact hP.2 i hi
      · rw [iterateT_getD_unlocked _ _ _ _ _ _ i (le_of_not_lt hK)
          (by rw [hP.1]; exact hi)]
        exact integrateStep_pos_inBox _ _ _ _ _ _ hx hy)
    mi 0 l0 lf hrun ⟨rfl, hinit⟩

/-- Witness for C5 amended: one free node at the origin inside the unit
box, one iteration. -/
theorem claim_C5_witness :
    layout ⟨[P2d.new], [P2d.new], [[]], 0⟩ (fun _ => (1 : ℝ)) 1 1 1 1
        ⟨0, 0⟩ ⟨1, 1⟩ = some ⟨[P2d.new], [P2d.new], [[]], 0⟩ ∧
    (((⟨[P2d.new], [P2d.new], [[]], 0⟩ : Layout).node_positions.length =
      (⟨[P2d.new], [P2d.new], [[]], 0⟩ : Layout).node_positions.length) ∧
    ∀ i, i < (⟨[P2d.new], [P2d.new], [[]], 0⟩ :
        Layout).node_positions.length →
      inBox ⟨0, 0⟩ ⟨1, 1⟩
        ((⟨[P2d.new], [P2d.new], [[]], 0⟩ : Layout).node_positions.getD i
          P2d.new)) := by
  have hclip : P2d.new.clip_within ⟨0, 0⟩ ⟨1, 1⟩ = P2d.new := by
    unfold P2d.clip_within P2d.new
    norm_num
  have hrun : layout ⟨[P2d.new], [P2d.new], [[]], 0⟩ (fun _ => (1 : ℝ)) 1 1 1 1
      ⟨0, 0⟩ ⟨1, 1⟩ = some ⟨[P2d.new], [P2d.new], [[]], 0⟩ := by
    unfold layout
    rw [layout_aux_eq_auxT _ _ _ _ _ _ 1 0 _ (WF_single _ _ _)]
    have hstep := layout_auxT_succ (fun _ => (1 : ℝ)) 1 1 1 ⟨0, 0⟩ ⟨1, 1⟩ 0 0
      ⟨[P2d.new], [P2d.new], [[]], 0⟩
    rw [iterateT_single_unlocked, hclip] at hstep
    rw [if_pos (by norm_num)] at hstep
    exact congrArg some hstep
  refine ⟨hrun, claim_C5_amended _ _ _ _ _ _ _ _ _ (by norm_num) (by norm_num)
    ?_ hrun⟩
  intro i hi
  have hi0 : i = 0 := by
    simp only [List.length_cons, List.length_nil] at hi
    omega
  subst hi0
  simp only [List.getD_cons_zero]
  refine ⟨?_, ?_, ?_, ?_⟩ <;> norm_num [P2d.new]

/-- C6: the first `K` positions are unchanged (over ℝ, equality is the
idealisation of bit-identity) by any successful run of the layout
routine; with `K = n` the whole positions list is unchanged; and an
iteration with every node locked reports total movement `0`, i.e. locked
nodes contribute nothing to the per-iteration total. -/
theorem claim_C6 (l0 lf : Layout) (sf : ℕ → ℝ) (mi : ℕ) (eps kr ks : ℝ)
    (mn mx : P2d) (hrun : layout l0 sf mi eps kr ks mn mx = some lf) :
    (∀ i, i < l0.lock_first_n_positions →
      lf.node_positions.getD i P2d.new = l0.node_positions.getD i P2d.new) ∧
    (l0.lock_first_n_positions = l0.node_positions.length →
      lf.node_positions = l0.node_positions) ∧
    (∀ (l l' : Layout) (d s : ℝ), iterate l s kr ks mn mx = some (l', d) →
      l.node_positions.length ≤ l.lock_first_n_positions → d = 0) := by
  unfold layout at hrun
  have hP := layout_aux_some_induction sf kr ks eps mn mx
    (fun l => l.lock_first_n_positions = l0.lock_first_n_positions ∧
      l.node_positions.length = l0.node_positions.length ∧
      ∀ i, i < l0.lock_first_n_positions →
        l.node_positions.getD i P2d.new = l0.node_positions.getD i P2d.new)
    (fun lA lB d s hit hP => by
      obtain ⟨h1, _⟩ := iterate_eq_some_elim hit
      subst h1
      refine ⟨by rw [iterateT_lock]; exact hP.1,
        by rw [iterateT_length]; exact hP.2.1, ?_⟩
      intro i hi
      rw [iterateT_getD_locked _ _ _ _ _ _ _ (by omega)]
      exact hP.2.2 i hi)
    mi 0 l0 lf hrun ⟨rfl, rfl, fun i _ => rfl⟩
  refine ⟨hP.2.2, ?_, ?_⟩
  · intro hKn
    refine List.ext_getElem hP.2.1 ?_
    intro i h1 h2
    have hiK : i < l0.lock_first_n_positions := by omega
    have := hP.2.2 i hiK
    rw [List.getD_eq_getElem _ _ h1, List.getD_eq_getElem _ _ h2] at this
    exact this
  · intro l l' d s hit hKn
    obtain ⟨_, h2⟩ := iterate_eq_some_elim hit
    rw [h2, iterateT_snd_eq,
      show l.node_positions.length - l.lock_first_n_positions = 0 by omega,
      List.range'_zero, List.foldl_nil]

/-- Witness for C6: one node locked at `(2,2)`; it is untouched by the
run. -/
theorem claim_C6_witness :
    layout ⟨[P2d.new], [⟨2, 2⟩], [[]], 1⟩ (fun _ => (1 : ℝ)) 1 1 1 1
        ⟨0, 0⟩ ⟨1, 1⟩ = some ⟨[P2d.new], [⟨2, 2⟩], [[]], 1⟩ ∧
    ((∀ i, i < (⟨[P2d.new], [⟨2, 2⟩], [[]], 1⟩ :
        Layout).lock_first_n_positions →
      (⟨[P2d.new], [⟨2, 2⟩], [[]], 1⟩ : Layout).node_positions.getD i
          P2d.new =
        (⟨[P2d.new], [⟨2, 2⟩], [[]], 1⟩ : Layout).node_positions.getD i
          P2d.new) ∧
    ((⟨[P2d.new], [⟨2, 2⟩], [[]], 1⟩ : Layout).lock_first_n_positions =
        (⟨[P2d.new], [⟨2, 2⟩], [[]], 1⟩ : Layout).node_positions.length →
      (⟨[P2d.new], [⟨2, 2⟩], [[]], 1⟩ : Layout).node_positions =
        (⟨[P2d.new], [⟨2, 2⟩], [[]], 1⟩ : Layout).node_positions) ∧
    (∀ (l l' : Layout) (d s : ℝ), iterate l s 1 1 ⟨0, 0⟩ ⟨1, 1⟩ =
        some (l', d) →
      l.node_positions.length ≤ l.lock_first_n_positions → d = 0)) := by
  have hrun : layout ⟨[P2d.new], [⟨2, 2⟩], [[]], 1⟩ (fun _ => (1 : ℝ)) 1 1 1 1
      ⟨0, 0⟩ ⟨1, 1⟩ = some ⟨[P2d.new], [⟨2, 2⟩], [[]], 1⟩ := by
    unfold layout
    rw [layout_aux_eq_auxT _ _ _ _ _ _ 1 0 _ (WF_single _ _ _)]
    have hstep := layout_auxT_succ (fun _ => (1 : ℝ)) 1 1 1 ⟨0, 0⟩ ⟨1, 1⟩ 0 0
      ⟨[P2d.new], [⟨2, 2⟩], [[]], 1⟩
    rw [iterateT_single_locked _ _ _ _ _ _ _ _ (le_refl 1)] at hstep
    rw [if_pos (by norm_num)] at hstep
    exact congrArg some hstep
  exact ⟨hrun, claim_C6 _ _ _ _ _ _ _ _ _ hrun⟩

/-- C9 counterexample: the engine checks only the shape
`len(neighbors) == len(positions)` at entry, so construction succeeds for
one node whose adjacency lists target index 5; but inside the iteration
loop the edge pass indexes `node_positions[5]`, a panic (modelled
`none`): the loop can fail even though the entry shape check passed. -/
theorem claim_C9_counterexample :
    Layout.new [(⟨0, 0⟩ : P2d)] [[5]] =
      some ⟨[P2d.new], [⟨0, 0⟩], [[5]], 0⟩ ∧
    iterate ⟨[P2d.new], [⟨0, 0⟩], [[5]], 0⟩ 1 1 1 ⟨0, 0⟩ ⟨1, 1⟩ = none :=
  ⟨rfl, rfl⟩

/-- C9 amended: the entry check accepts exactly the inputs with
`len(neighbors) == len(positions)`; and under the precondition that the
shapes match AND every adjacency target index is in range (`WF`), no
operation inside the iteration loop can fail: every `iterate` call and
every full `layout` run returns a value. -/
theorem claim_C9 (ps : List P2d) (ns : List (List ℕ)) (l : Layout)
    (sf : ℕ → ℝ) (mi : ℕ) (eps kr ks : ℝ) (mn mx : P2d) (hW : WF l) :
    ((Layout.new ps ns).isSome ↔ ns.length = ps.length) ∧
    (∀ s, (iterate l s kr ks mn mx).isSome) ∧
    (layout l sf mi eps kr ks mn mx).isSome := by
  refine ⟨?_, ?_, ?_⟩
  · unfold Layout.new
    simp only
    by_cases hc : ns.length = ps.length
    · rw [if_pos hc]
      simp [hc]
    · rw [if_neg hc]
      simp [hc]
  · intro s
    rw [iterate_eq_iterateT l s kr ks mn mx hW]
    rfl
  · unfold layout
    rw [layout_aux_eq_auxT _ _ _ _ _ _ mi 0 l hW]
    rfl

/-- Witness for C9 amended: a one-node layout with an empty adjacency
list. -/
theorem claim_C9_witness :
    WF ⟨[P2d.new], [P2d.new], [[]], 0⟩ ∧
    (((Layout.new [(⟨0, 0⟩ : P2d)] [[]]).isSome ↔
        ([[]] : List (List ℕ)).length = [(⟨0, 0⟩ : P2d)].length) ∧
    (∀ s, (iterate ⟨[P2d.new], [P2d.new], [[]], 0⟩ s 1 1
      ⟨0, 0⟩ ⟨1, 1⟩).isSome) ∧
    (layout ⟨[P2d.new], [P2d.new], [[]], 0⟩ (fun _ => (1 : ℝ)) 1 1 1 1
      ⟨0, 0⟩ ⟨1, 1⟩).isSome) :=
  ⟨WF_single _ _ _,
    claim_C9 [(⟨0, 0⟩ : P2d)] [[]] ⟨[P2d.new], [P2d.new], [[]], 0⟩
      (fun _ => (1 : ℝ)) 1 1 1 1 ⟨0, 0⟩ ⟨1, 1⟩ (WF_single _ _ _)⟩

end
